import Mathlib

/-! # cf-redis-smoke-tests: retry configuration, redis example-app probes, test context names

A shallow embedding of

* `service/service_suite_test.go`  (`retryConfig`, `retryConfig.Backoff`),
* `redis/redis.go`                 (`App`, `NewApp`, `keyURI`, `IsRunning`, `Write`, `ReadAssert`),
* `cf-test-helpers/services/context_setup/context_setup.go` (`NewContext`),

together with the fragments of the Go standard library these functions call
(`time.Duration` arithmetic, `strings.ToLower`, `fmt.Sprintf`, `regexp`). Package `retry`
of the repository (backoff policies, the retry session controller) is not among the source
files; its definitions follow the specification and say so.

Go strings are embedded as Lean `String`s (sequences of Unicode scalar values);
`time.Duration` is an `Int` count of nanoseconds kept in the signed 64-bit range
by `wrapInt64`.
-/

/-! ## Machine integers and `time.Duration` -/

/-- Two's-complement wrap of an integer into the signed 64-bit range. -/
def wrapInt64 (x : Int) : Int := (x + 2 ^ 63) % 2 ^ 64 - 2 ^ 63

/-- Largest value of Go's `uint` on a 64-bit platform, plus one. -/
def uintRange : Nat := 2 ^ 64

namespace time

/-- `time.Duration`: an `int64` count of nanoseconds. -/
abbrev Duration := Int

/-- `time.Millisecond = 1000 * 1000` nanoseconds. -/
def Millisecond : Duration := 1000000

/-- The conversion `time.Duration(u)` of a `uint` value: same bits, read as `int64`. -/
def Duration.ofUint (u : Nat) : Duration := wrapInt64 (u % uintRange)

/-- Multiplication of two durations, wrapping as `int64` multiplication does. -/
def Duration.mul (a b : Duration) : Duration := wrapInt64 (a * b)

end time

/-! ## Package `retry`: backoff policies -/

namespace retry

/-- Modelled from the spec: package `retry` of this repository is not among the
source files. A backoff policy is one of the variants named by the spec
("Variants: no-delay, linear, exponential"), each built from a baseline duration. -/
inductive Backoff where
  | None (baseline : time.Duration)
  | Linear (baseline : time.Duration)
  | Exponential (baseline : time.Duration)
deriving DecidableEq, Repr

export Backoff (None Linear Exponential)

/-- Modelled from the spec: the contract `next(attemptIndex) -> Duration` of a backoff
policy. *None*: "constant configured interval regardless of attempt index";
*Linear*: "`baseline * (attemptIndex + 1)`"; *Exponential*: "`baseline * 2^attemptIndex`". -/
def Backoff.next : Backoff → Nat → time.Duration
  | .None baseline, _ => baseline
  | .Linear baseline, attemptIndex => baseline * ((attemptIndex : Int) + 1)
  | .Exponential baseline, attemptIndex => baseline * 2 ^ attemptIndex

end retry

/-! ## `strings.ToLower` -/

namespace unicode

/-- `unicode.ToLower`: ASCII runes are handled inline (`'A'..'Z'` are shifted by
`'a' - 'A'`), every other rune goes through the Unicode case tables, which are taken
as the parameter `caseTable`. -/
def ToLower (caseTable : Char → Char) (r : Char) : Char :=
  if r.toNat ≤ 0x7F then
    if 'A'.toNat ≤ r.toNat ∧ r.toNat ≤ 'Z'.toNat then Char.ofNat (r.toNat + ('a'.toNat - 'A'.toNat))
    else r
  else caseTable r

end unicode

namespace strings

/-- `strings.ToLower`: every rune of the string mapped through `unicode.ToLower`.
(The fast path of the library for all-ASCII strings computes the same result.) -/
def ToLower (caseTable : Char → Char) (s : String) : String :=
  ⟨s.data.map (unicode.ToLower caseTable)⟩

end strings

/-! ## `service/service_suite_test.go` -/

/-- The struct `retryConfig`; the two `uint` fields are natural numbers below `uintRange`. -/
structure retryConfig where
  BaselineMilliseconds : Nat
  Attempts : Nat
  BackoffAlgorithm : String
deriving Repr

/-- A `retryConfig` is well formed when its `uint` fields fit in a `uint`. -/
def retryConfig.wellFormed (rc : retryConfig) : Prop :=
  rc.BaselineMilliseconds < uintRange ∧ rc.Attempts < uintRange

instance (rc : retryConfig) : Decidable rc.wellFormed := by
  unfold retryConfig.wellFormed; exact inferInstance

/-- The local `baseline := time.Duration(rc.BaselineMilliseconds) * time.Millisecond`. -/
def retryConfig.baseline (rc : retryConfig) : time.Duration :=
  time.Duration.mul (time.Duration.ofUint rc.BaselineMilliseconds) time.Millisecond

/-- The method `retryConfig.Backoff`. -/
def retryConfig.Backoff (caseTable : Char → Char) (rc : retryConfig) : retry.Backoff :=
  let baseline := time.Duration.mul (time.Duration.ofUint rc.BaselineMilliseconds) time.Millisecond
  let algo := strings.ToLower caseTable rc.BackoffAlgorithm
  if algo = "linear" then retry.Linear baseline
  else if algo = "exponential" then retry.Linear baseline
  else retry.None baseline

/-- An ASCII case variant of a lower-case word: the same length, and every rune is the
corresponding rune of the word or its upper-case form. -/
def asciiCaseVariant (s word : String) : Prop :=
  List.Forall₂ (fun c d => c = d ∨ c = d.toUpper) s.data word.data

/-- A fragment of the Unicode lower-case table: the two non-ASCII runes whose lower case is
an ASCII letter (U+0130 to `i`, U+212A to `k`); every other rune is left unchanged. -/
def sampleCaseTable (c : Char) : Char :=
  if c.toNat = 0x130 then 'i' else if c.toNat = 0x212A then 'k' else c

/-! ## `fmt.Sprintf` -/

namespace fmt

/-- An operand of `Sprintf`: the repository passes strings (to `%s`) and ints (to `%d`). -/
inductive Arg where
  | str (s : String)
  | int (n : Int)
deriving Repr

/-- The operand as the verbs `%s` (string) and `%d` (int) print it. -/
def Arg.text : Arg → List Char
  | .str s => s.data
  | .int n => (toString n).data

/-- The Go type name of the operand, as printed in diagnostics. -/
def Arg.typeName : Arg → List Char
  | .str _ => "string".data
  | .int _ => "int".data

/-- The diagnostic `%!(EXTRA type=value, ...)` for operands left over at the end of the
format. -/
def extraArgs : List Arg → List Char
  | [] => []
  | a :: rest =>
    "%!(EXTRA ".data ++ a.typeName ++ ['='] ++ a.text
      ++ (rest.map fun b => ", ".data ++ b.typeName ++ ['='] ++ b.text).flatten ++ [')']

/-- The formatting loop of `Sprintf` for the verbs `%s`, `%d` and `%%` without flags:
text is copied, `%s` prints a string operand verbatim (the operand is not scanned again),
`%d` prints an int operand in decimal; a verb without operand, with an operand of the wrong
type, or a verb outside this fragment prints the library's `%!verb(...)` diagnostic. -/
def sprintfAux : List Char → List Arg → List Char
  | [], args => extraArgs args
  | ['%'], args => "%!(NOVERB)".data ++ extraArgs args
  | '%' :: '%' :: rest, args => '%' :: sprintfAux rest args
  | '%' :: verb :: rest, [] => "%!".data ++ [verb] ++ "(MISSING)".data ++ sprintfAux rest []
  | '%' :: 's' :: rest, .str s :: args => s.data ++ sprintfAux rest args
  | '%' :: 'd' :: rest, .int n :: args => (toString n).data ++ sprintfAux rest args
  | '%' :: verb :: rest, a :: args =>
    "%!".data ++ [verb] ++ ['('] ++ a.typeName ++ ['='] ++ a.text ++ [')'] ++ sprintfAux rest args
  | c :: rest, args => c :: sprintfAux rest args

/-- `fmt.Sprintf(format, args...)`. -/
def Sprintf (format : String) (args : List Arg) : String := ⟨sprintfAux format.data args⟩

end fmt

/-! ## `redis/redis.go` -/

namespace retry

/-- The arguments of one call chain
`retry.Session(curlFn).WithSessionTimeout(timeout).AndBackoff(backoff).Until(
retry.MatchesOutput(regexp.MustCompile(pattern)), message)`:
the command line `curlFn` hands to `runner.Curl`, the session timeout, the backoff policy,
the source text of the pattern, and the failure message. -/
structure Run where
  curlArgs : List String
  sessionTimeout : time.Duration
  backoff : Backoff
  pattern : String
  failureMessage : String
deriving Repr

end retry

/-- The struct `App`. -/
structure App where
  uri : String
  timeout : time.Duration
  retryBackoff : retry.Backoff
deriving Repr

/-- The constructor `NewApp`. -/
def NewApp (uri : String) (timeout retryInterval : time.Duration) : App :=
  { uri := uri, timeout := timeout, retryBackoff := retry.None retryInterval }

/-- The method `App.keyURI`. -/
def App.keyURI (app : App) (key : String) : String :=
  fmt.Sprintf "%s/%s" [.str app.uri, .str key]

/-- The retry run performed by the closure `App.IsRunning` returns. -/
def App.IsRunning (app : App) : retry.Run :=
  let pingURI := fmt.Sprintf "%s/ping" [.str app.uri]
  { curlArgs := [pingURI, "-k"]
    sessionTimeout := app.timeout
    backoff := app.retryBackoff
    pattern := "key not present"
    failureMessage := "\x7b\"FailReason\": \"Test app deployed but did not respond in time\"\x7d" }

/-- The retry run performed by the closure `App.Write` returns. -/
def App.Write (app : App) (key value : String) : retry.Run :=
  { curlArgs := ["-d", fmt.Sprintf "data=%s" [.str value], "-X", "PUT", app.keyURI key, "-k"]
    sessionTimeout := app.timeout
    backoff := app.retryBackoff
    pattern := "success"
    failureMessage :=
      fmt.Sprintf "\x7b\"FailReason\": \"Failed to put to %s\"\x7d" [.str (app.keyURI key)] }

/-- The retry run performed by the closure `App.ReadAssert` returns. -/
def App.ReadAssert (app : App) (key expectedValue : String) : retry.Run :=
  { curlArgs := [app.keyURI key, "-k"]
    sessionTimeout := app.timeout
    backoff := app.retryBackoff
    pattern := expectedValue
    failureMessage :=
      fmt.Sprintf "\x7b\"FailReason\": \"Failed to get %s\"\x7d" [.str (app.keyURI key)] }

/-! ## `context_setup/context_setup.go` -/

/-- The struct `ConfiguredContext`; the type `IntegrationConfig` of its first field is
declared in another file of the package and is taken as a parameter. -/
structure ConfiguredContext (IntegrationConfig : Type) where
  config : IntegrationConfig
  organizationName : String
  spaceName : String
  quotaDefinitionName : String
  quotaDefinitionGUID : String
  regularUserUsername : String
  regularUserPassword : String
  securityGroupName : String
  isPersistent : Bool

/-- The constructor `NewContext`. The two values it reads from its environment are
arguments here: `node` is `ginkgoconfig.GinkgoConfig.ParallelNode` and `timeTag` is
`time.Now().Format("2006_01_02-15h04m05.999s")`. -/
def NewContext {IntegrationConfig : Type} (config : IntegrationConfig) (namePrefix : String)
    (node : Int) (timeTag : String) : ConfiguredContext IntegrationConfig :=
  { config := config
    quotaDefinitionName :=
      fmt.Sprintf "%s-QUOTA-%d-%s" [.str namePrefix, .int node, .str timeTag]
    quotaDefinitionGUID := ""
    organizationName := fmt.Sprintf "%s-ORG-%d-%s" [.str namePrefix, .int node, .str timeTag]
    spaceName := fmt.Sprintf "%s-SPACE-%d-%s" [.str namePrefix, .int node, .str timeTag]
    regularUserUsername :=
      fmt.Sprintf "%s-USER-%d-%s" [.str namePrefix, .int node, .str timeTag]
    regularUserPassword := "6S5CURVjP7.5.05Ip61YxZph.65Tuv4.rCsXYP7A0.G1..tT8fhhhhhhcf......"
    securityGroupName :=
      fmt.Sprintf "%s-SECURITY_GROUP-%d-%s" [.str namePrefix, .int node, .str timeTag]
    isPersistent := false }

/-- The five resource names `NewContext` generates. -/
def ConfiguredContext.generatedNames {IntegrationConfig : Type}
    (context : ConfiguredContext IntegrationConfig) : List String :=
  [context.quotaDefinitionName, context.organizationName, context.spaceName,
   context.regularUserUsername, context.securityGroupName]


/-! ## `regexp` (a fragment of the RE2 syntax) -/

namespace regexp

/-- Parsed regular expressions. -/
inductive Regexp where
  | noMatch
  | emptyMatch
  | literal (c : Char)
  | anyCharNotNL
  | concat (a b : Regexp)
  | alternate (a b : Regexp)
  | star (a : Regexp)
  | plus (a : Regexp)
  | quest (a : Regexp)
deriving DecidableEq, Repr

/-- An entry of the parse stack: a regular expression or one of the two pseudo-operators. -/
inductive StackItem where
  | re (r : Regexp)
  | leftParen
  | verticalBar
deriving DecidableEq, Repr

/-- The outcome of `Compile` on the modelled fragment: a regular expression, a syntax error
(on which `MustCompile` panics), or `unsupported` when the expression uses syntax outside
the fragment (`\`, `[`, `]`, `{`, `}`, `^`, `$`, and groups starting with `(?`), about
which the model says nothing. -/
inductive CompileResult where
  | ok (re : Regexp)
  | error
  | unsupported
deriving DecidableEq, Repr

/-- The regular expressions above the topmost pseudo-operator (bottom first), and the rest
of the stack. The head of the list is the top of the stack. -/
def splitTop : List StackItem → List Regexp × List StackItem
  | StackItem.re r :: stack => ((splitTop stack).1 ++ [r], (splitTop stack).2)
  | stack => ([], stack)

/-- Concatenation of a non-empty sequence of regular expressions; the empty concatenation
is the empty match. -/
def collapseConcat : List Regexp → Regexp
  | [] => Regexp.emptyMatch
  | [r] => r
  | r :: rs => Regexp.concat r (collapseConcat rs)

/-- Alternation of a sequence of regular expressions; the empty alternation matches nothing. -/
def collapseAlternate : List Regexp → Regexp
  | [] => Regexp.noMatch
  | [r] => r
  | r :: rs => Regexp.alternate r (collapseAlternate rs)

/-- The parser step `concat`: replace the regular expressions above the topmost
pseudo-operator by their concatenation. -/
def concat (stack : List StackItem) : List StackItem :=
  StackItem.re (collapseConcat (splitTop stack).1) :: (splitTop stack).2

/-- The parser step `alternate`: replace the regular expressions above the topmost
pseudo-operator by their alternation. -/
def alternate (stack : List StackItem) : List StackItem :=
  StackItem.re (collapseAlternate (splitTop stack).1) :: (splitTop stack).2

/-- The parser step `swapVerticalBar` followed by the removal of the bar: when the entry
below the top is a vertical bar, the bar is dropped and the top joins the alternatives
below it. -/
def popVerticalBar : List StackItem → List StackItem
  | top :: StackItem.verticalBar :: stack => top :: stack
  | stack => stack

/-- The parser step `parseVerticalBar`: close the current concatenation and leave a vertical
bar on top of the alternatives collected so far. -/
def parseVerticalBar (stack : List StackItem) : List StackItem :=
  StackItem.verticalBar :: popVerticalBar (concat stack)

/-- The parser step `parseRightParen`: close the current concatenation and alternation and
replace them and the matching left parenthesis by the group; `none` when there is no
matching left parenthesis. -/
def parseRightParen (stack : List StackItem) : Option (List StackItem) :=
  match alternate (popVerticalBar (concat stack)) with
  | StackItem.re r :: StackItem.leftParen :: rest => some (StackItem.re r :: rest)
  | _ => none

/-- The parser step `repeat` for the operators `*`, `+` and `?`. A repetition operator
directly after another one (`lastRepeat`) is a syntax error, and so is one with no regular
expression on top of the stack to apply to; otherwise the operator is applied to the top. -/
def repeatTop (op : Char) (lastRepeat : Bool) : List StackItem → Option (List StackItem)
  | StackItem.re r :: stack =>
    if lastRepeat then none
    else some (StackItem.re (if op = '*' then Regexp.star r
      else if op = '+' then Regexp.plus r else Regexp.quest r) :: stack)
  | _ => none

/-- The end of the parse: close the last concatenation and alternation; exactly one entry
must remain, otherwise a left parenthesis was never closed. -/
def finish (stack : List StackItem) : CompileResult :=
  match alternate (popVerticalBar (concat stack)) with
  | [StackItem.re r] => CompileResult.ok r
  | _ => CompileResult.error

/-- The main loop of the parser over the runes of the expression. `lastRepeat` records
whether the previous token was a repetition operator. A `?` directly after a repetition
operator is its non-greedy mark and belongs to that operator. -/
def parseLoop : List Char → List StackItem → Bool → CompileResult
  | [], stack, _ => finish stack
  | '(' :: '?' :: _, _, _ => CompileResult.unsupported
  | '(' :: rest, stack, _ => parseLoop rest (StackItem.leftParen :: stack) false
  | '|' :: rest, stack, _ => parseLoop rest (parseVerticalBar stack) false
  | ')' :: rest, stack, _ =>
    match parseRightParen stack with
    | some stack1 => parseLoop rest stack1 false
    | none => CompileResult.error
  | '.' :: rest, stack, _ => parseLoop rest (StackItem.re Regexp.anyCharNotNL :: stack) false
  | '*' :: '?' :: rest, stack, lastRepeat =>
    match repeatTop '*' lastRepeat stack with
    | some stack1 => parseLoop rest stack1 true
    | none => CompileResult.error
  | '*' :: rest, stack, lastRepeat =>
    match repeatTop '*' lastRepeat stack with
    | some stack1 => parseLoop rest stack1 true
    | none => CompileResult.error
  | '+' :: '?' :: rest, stack, lastRepeat =>
    match repeatTop '+' lastRepeat stack with
    | some stack1 => parseLoop rest stack1 true
    | none => CompileResult.error
  | '+' :: rest, stack, lastRepeat =>
    match repeatTop '+' lastRepeat stack with
    | some stack1 => parseLoop rest stack1 true
    | none => CompileResult.error
  | '?' :: '?' :: rest, stack, lastRepeat =>
    match repeatTop '?' lastRepeat stack with
    | some stack1 => parseLoop rest stack1 true
    | none => CompileResult.error
  | '?' :: rest, stack, lastRepeat =>
    match repeatTop '?' lastRepeat stack with
    | some stack1 => parseLoop rest stack1 true
    | none => CompileResult.error
  | c :: rest, stack, _ =>
    if c = '\\' ∨ c = '[' ∨ c = ']' ∨ c = '\x7b' ∨ c = '\x7d' ∨ c = '^' ∨ c = '$' then
      CompileResult.unsupported
    else parseLoop rest (StackItem.re (Regexp.literal c) :: stack) false

/-- `regexp.Compile(expr)` on the modelled fragment. -/
def Compile (expr : String) : CompileResult := parseLoop expr.data [] false

/-- Whether the regular expression matches the empty string. -/
def Regexp.nullable : Regexp → Bool
  | .noMatch => false
  | .emptyMatch => true
  | .literal _ => false
  | .anyCharNotNL => false
  | .concat a b => a.nullable && b.nullable
  | .alternate a b => a.nullable || b.nullable
  | .star _ => true
  | .plus a => a.nullable
  | .quest _ => true

/-- The derivative of a regular expression by a rune: it matches `w` exactly when the
regular expression matches the rune followed by `w`. -/
def Regexp.deriv : Regexp → Char → Regexp
  | .noMatch, _ => .noMatch
  | .emptyMatch, _ => .noMatch
  | .literal c, d => if c = d then .emptyMatch else .noMatch
  | .anyCharNotNL, d => if d = '\n' then .noMatch else .emptyMatch
  | .concat a b, d =>
    if a.nullable then .alternate (.concat (a.deriv d) b) (b.deriv d)
    else .concat (a.deriv d) b
  | .alternate a b, d => .alternate (a.deriv d) (b.deriv d)
  | .star a, d => .concat (a.deriv d) (.star a)
  | .plus a, d => .concat (a.deriv d) (.star a)
  | .quest a, d => a.deriv d

/-- Whether the regular expression matches some prefix of the text. -/
def Regexp.matchPrefix (re : Regexp) : List Char → Bool
  | [] => re.nullable
  | c :: text => re.nullable || (re.deriv c).matchPrefix text

/-- Whether the regular expression matches some substring of the text. -/
def Regexp.matchSubstring (re : Regexp) : List Char → Bool
  | [] => re.nullable
  | c :: text => re.matchPrefix (c :: text) || re.matchSubstring text

/-- `(*Regexp).MatchString`: the text contains a match of the regular expression. -/
def Regexp.MatchString (re : Regexp) (s : String) : Bool := re.matchSubstring s.data

end regexp
/-! ## Package `retry`: the retry session controller -/

namespace retry

/-- Modelled from the spec: `retry.MatchesOutput` is not among the source files. "The
standard predicate form used throughout is: output contains a substring matching a given
pattern". -/
def MatchesOutput (re : regexp.Regexp) (output : String) : Bool := re.MatchString output

/-- Modelled from the spec: the result contract of a retry run, "`Success` (no payload) or
`Failure{ message: string }`". -/
inductive Result where
  | Success
  | Failure (message : String)
deriving DecidableEq, Repr

/-- Modelled from the spec: a Checkable Session, "one externally observable attempt".
`observedOutput d` is the output observed `d` time units after the spawn ("safe to poll
repeatedly"); the session reaches its terminal state `exitAfter` time units after the
spawn. Its lifecycle "transitions from *running* to exactly one terminal state": a session
is running when it is created, so `exitAfter` is positive. -/
structure CheckableSession where
  observedOutput : Nat → String
  exitAfter : Nat
  running : 0 < exitAfter

/-- Modelled from the spec: what the session factory `spawn()` yields, a session or the
report of an "unrecoverable error" ("the session factory itself cannot produce a session"),
which carries the message of that error. -/
abbrev Spawned := Except String CheckableSession

/-- Modelled from the spec: the configuration held by the Retry Session Controller,
"overall timeout, per-attempt timeout, backoff policy, failure message template"; the
per-attempt timeout is "optional, defaults to overallTimeout". -/
structure Controller where
  overallTimeout : time.Duration
  perAttemptTimeout : Option time.Duration
  backoff : Backoff
  failureMessage : String

/-- Modelled from the spec: the "remaining overall time" of step 3, `now` time units after
the start of the run; zero once the overall deadline has elapsed. -/
def Controller.remaining (c : Controller) (now : Nat) : Nat :=
  ((c.overallTimeout : Int) - (now : Int)).toNat

/-- Modelled from the spec: the "configured per-attempt timeout" of step 3, which "defaults
to overallTimeout". -/
def Controller.attemptTimeout (c : Controller) : Nat :=
  (c.perAttemptTimeout.getD c.overallTimeout).toNat

/-- Modelled from the spec: step 3 (*Observe*), "poll the session's output against the
MatchPredicate, bounded by" the window: the first poll, before the window closes and not
after the session is terminal, at which the predicate matches. -/
def observe (predicate : String → Bool) (session : CheckableSession) (window : Nat) :
    Option Nat :=
  (List.range (min window (session.exitAfter + 1))).find?
    (fun d => predicate (session.observedOutput d))

/-- Modelled from the spec: what one attempt of the controller leads to, a terminal state
of the run or the next attempt (step 5) at a later time. -/
inductive Outcome where
  | done (result : Result)
  | again (now : Nat)
deriving DecidableEq, Repr

/-- Modelled from the spec: steps 2 to 4 of the core algorithm for the attempt number
`attemptIndex`, begun `now` time units after the start of the run.
No attempt is started once the overall deadline has elapsed (*Failure* with the
caller-supplied message). Otherwise the factory is asked for a session; when it reports an
unrecoverable error the run is aborted at once, "not retried", a *Failure* with the
"distinct message" of that error. A spawned session is observed for the lesser of the
remaining overall time and the per-attempt timeout: a match is *Success*; without a match
the attempt ends when the session is terminal or the window closes; if the overall deadline
has then elapsed the run is a *Failure* with the caller-supplied message; otherwise the
controller sleeps for `backoff.next(attemptIndex)`, shortened to the remaining time, and
goes on to the next attempt. -/
def Controller.attempt (c : Controller) (spawn : Nat → Nat → Spawned)
    (predicate : String → Bool) (attemptIndex now : Nat) : Outcome :=
  if c.remaining now = 0 then Outcome.done (Result.Failure c.failureMessage)
  else
    match spawn attemptIndex now with
    | Except.error message => Outcome.done (Result.Failure message)
    | Except.ok session =>
      let window := min (c.remaining now) c.attemptTimeout
      match observe predicate session window with
      | some _ => Outcome.done Result.Success
      | none =>
        let now1 := now + min window session.exitAfter
        if c.remaining now1 = 0 then Outcome.done (Result.Failure c.failureMessage)
        else
          let wait := min (c.backoff.next attemptIndex).toNat (c.remaining now1)
          Outcome.again (now1 + wait)

/-- Modelled from the spec: the loop of `runUntilSatisfied` (steps 2 to 5), with a bound
`fuel` on the number of attempts; `none` when the bound is reached. -/
def Controller.runLoop (c : Controller) (spawn : Nat → Nat → Spawned)
    (predicate : String → Bool) : Nat → Nat → Nat → Option Result
  | 0, _, _ => none
  | fuel + 1, attemptIndex, now =>
    match c.attempt spawn predicate attemptIndex now with
    | Outcome.done result => some result
    | Outcome.again now1 => c.runLoop spawn predicate fuel (attemptIndex + 1) now1

/-- Modelled from the spec: `runUntilSatisfied() -> Success | Failure(reason)`. Step 1:
the run starts at time 0 with `attemptIndex = 0`; the overall deadline is the overall
timeout. The loop is given one attempt per time unit of the overall timeout, plus one. -/
def Controller.runUntilSatisfied (c : Controller) (spawn : Nat → Nat → Spawned)
    (predicate : String → Bool) : Option Result :=
  c.runLoop spawn predicate (c.overallTimeout.toNat + 1) 0 0

/-- The time at which the attempt `k` attempts after `attemptIndex` asks the factory for its
session, when the attempt `attemptIndex` begins at `now`; `none` when the run ends before. -/
def Controller.spawnTime (c : Controller) (spawn : Nat → Nat → Spawned)
    (predicate : String → Bool) : Nat → Nat → Nat → Option Nat
  | 0, _, now => if c.remaining now = 0 then none else some now
  | k + 1, attemptIndex, now =>
    match c.attempt spawn predicate attemptIndex now with
    | Outcome.done _ => none
    | Outcome.again now1 => c.spawnTime spawn predicate k (attemptIndex + 1) now1

/-- Modelled from the spec: the controller configured by the chain
`Session(curlFn).WithSessionTimeout(timeout).AndBackoff(backoff)` and the message passed to
`Until`: the timeout is the overall timeout, no separate per-attempt timeout is set. -/
def Run.controller (r : Run) : Controller :=
  { overallTimeout := r.sessionTimeout
    perAttemptTimeout := none
    backoff := r.backoff
    failureMessage := r.failureMessage }

/-- Modelled from the spec: the call `Until(predicate, message)` at the end of the chain is
`runUntilSatisfied` of the controller so configured. The sessions come from `world`:
`world args attemptIndex now` is what `curlFn`, that is `runner.Curl(args...)`, yields for
the attempt `attemptIndex` at time `now`: a curl session, or the report that none could be
started. -/
def Run.Until (r : Run) (world : List String → Nat → Nat → Spawned)
    (predicate : String → Bool) : Option Result :=
  r.controller.runUntilSatisfied (world r.curlArgs) predicate

/-- The session of the `k`-th attempt of the run matches the predicate strictly before the
overall deadline: the attempt spawns a session at some time `t`, and `d` time units later,
not after the session is terminal and with `t + d` before the deadline, its observed output
satisfies the predicate. -/
def Run.sessionMatchesBeforeDeadline (r : Run)
    (world : List String → Nat → Nat → Spawned) (predicate : String → Bool)
    (k : Nat) : Prop :=
  ∃ t session d, r.controller.spawnTime (world r.curlArgs) predicate k 0 0 = some t ∧
    world r.curlArgs k t = Except.ok session ∧
    d ≤ session.exitAfter ∧
    predicate (session.observedOutput d) = true ∧
    ((t + d : Nat) : Int) < r.sessionTimeout

/-- The `k`-th attempt of the run asks the factory for a session and the factory reports an
unrecoverable error with the given message. -/
def Run.spawnFails (r : Run) (world : List String → Nat → Nat → Spawned)
    (predicate : String → Bool) (k : Nat) (message : String) : Prop :=
  ∃ t, r.controller.spawnTime (world r.curlArgs) predicate k 0 0 = some t ∧
    world r.curlArgs k t = Except.error message

/-- The predicate `retry.MatchesOutput(regexp.MustCompile(r.pattern))` of a run, applied to
an output. -/
inductive PredicateOutcome where
  | accepts
  | rejects
  | panics
  | unsupported
deriving DecidableEq, Repr

end retry

/-- `regexp.MustCompile(expr)`: as `Compile`, where the outcome `error` is a panic. -/
def regexp.MustCompile (expr : String) : regexp.CompileResult := regexp.Compile expr

/-- The predicate `retry.MatchesOutput(regexp.MustCompile(pattern))` applied to the output
of a session. -/
def retry.matchesPattern (pattern output : String) : retry.PredicateOutcome :=
  match regexp.MustCompile pattern with
  | regexp.CompileResult.ok re =>
    if retry.MatchesOutput re output then retry.PredicateOutcome.accepts
    else retry.PredicateOutcome.rejects
  | regexp.CompileResult.error => retry.PredicateOutcome.panics
  | regexp.CompileResult.unsupported => retry.PredicateOutcome.unsupported

/-- The predicate the probe builds from its pattern, applied to the output of a session. -/
def retry.Run.checkOutput (r : retry.Run) (output : String) : retry.PredicateOutcome :=
  retry.matchesPattern r.pattern output

/-! ## A sample scenario -/

/-- A sample world: the first curl session of a run prints an error, every later one prints
"success" three time units after its spawn; each session exits five time units after its
spawn. -/
def sampleWorld (_args : List String) (attemptIndex _now : Nat) : retry.Spawned :=
  if attemptIndex = 0 then
    Except.ok { observedOutput := fun _ => "error", exitAfter := 5, running := by decide }
  else
    Except.ok { observedOutput := fun d => if d < 3 then "" else "success", exitAfter := 5,
                running := by decide }

/-- A sample world in which nothing ever answers: every curl session prints nothing and
exits one time unit after its spawn. -/
def silentWorld (_args : List String) (_attemptIndex _now : Nat) : retry.Spawned :=
  Except.ok { observedOutput := fun _ => "", exitAfter := 1, running := by decide }

/-- A sample world in which no curl session can be started. -/
def brokenWorld (_args : List String) (_attemptIndex _now : Nat) : retry.Spawned :=
  Except.error "exec: \"curl\": executable file not found in $PATH"

/-- The predicate of a run as a function to `Bool`: the output is accepted. -/
def retry.Run.acceptsOutput (r : retry.Run) (output : String) : Bool :=
  decide (r.checkOutput output = retry.PredicateOutcome.accepts)


/-! ## The language of a regular expression -/

/-- The texts a regular expression matches in full. -/
inductive regexp.Regexp.Matches : regexp.Regexp → List Char → Prop where
  | emptyMatch : Matches .emptyMatch []
  | literal (c : Char) : Matches (.literal c) [c]
  | anyCharNotNL (d : Char) (h : d ≠ '\n') : Matches .anyCharNotNL [d]
  | concat {a b : regexp.Regexp} {u v : List Char} :
      Matches a u → Matches b v → Matches (.concat a b) (u ++ v)
  | alternateLeft {a b : regexp.Regexp} {u : List Char} :
      Matches a u → Matches (.alternate a b) u
  | alternateRight {a b : regexp.Regexp} {u : List Char} :
      Matches b u → Matches (.alternate a b) u
  | starNil {a : regexp.Regexp} : Matches (.star a) []
  | starCons {a : regexp.Regexp} {u v : List Char} :
      Matches a u → Matches (.star a) v → Matches (.star a) (u ++ v)
  | plus {a : regexp.Regexp} {u v : List Char} :
      Matches a u → Matches (.star a) v → Matches (.plus a) (u ++ v)
  | questNil {a : regexp.Regexp} : Matches (.quest a) []
  | quest {a : regexp.Regexp} {u : List Char} : Matches a u → Matches (.quest a) u

/-- The runes `regexp.QuoteMeta` escapes: the ones with a special meaning in a regular
expression. -/
def regexp.special (c : Char) : Bool :=
  c = '\\' || c = '.' || c = '+' || c = '*' || c = '?' || c = '(' || c = ')' || c = '|'
    || c = '[' || c = ']' || c = '\x7b' || c = '\x7d' || c = '^' || c = '$'

/-! ## Helper lemmas -/

/-! ### Machine integers, lower-casing and `retryConfig.Backoff` -/

theorem wrapInt64_eq_self {x : Int} (h1 : -(2 ^ 63) ≤ x) (h2 : x < 2 ^ 63) : wrapInt64 x = x := by
  unfold wrapInt64
  omega

theorem wrapInt64_range (x : Int) : -(2 ^ 63) ≤ wrapInt64 x ∧ wrapInt64 x < 2 ^ 63 := by
  unfold wrapInt64
  omega

theorem strings.ToLower_linear (caseTable : Char → Char) :
    strings.ToLower caseTable "linear" = "linear" := rfl

theorem strings.ToLower_exponential (caseTable : Char → Char) :
    strings.ToLower caseTable "exponential" = "exponential" := rfl

theorem strings.ToLower_none (caseTable : Char → Char) :
    strings.ToLower caseTable "none" = "none" := rfl

theorem strings.ToLower_idem (caseTable : Char → Char)
    (hidem : ∀ c, unicode.ToLower caseTable (unicode.ToLower caseTable c)
      = unicode.ToLower caseTable c) (s : String) :
    strings.ToLower caseTable (strings.ToLower caseTable s) = strings.ToLower caseTable s := by
  unfold strings.ToLower
  simp only [List.map_map]
  congr 1
  apply List.map_congr_left
  intro c _
  exact hidem c

theorem Char.toNat_ofNat_shift (n : Nat) (h1 : 65 ≤ n) (h2 : n ≤ 90) :
    (Char.ofNat (n + 32)).toNat = n + 32 := by
  interval_cases n <;> rfl

theorem unicode.ToLower_idem_of_table (caseTable : Char → Char)
    (hascii : ∀ c : Char, 0x7F < c.toNat → (caseTable c).toNat ≤ 0x7F →
      ¬ (65 ≤ (caseTable c).toNat ∧ (caseTable c).toNat ≤ 90))
    (hfix : ∀ c : Char, 0x7F < c.toNat → 0x7F < (caseTable c).toNat →
      caseTable (caseTable c) = caseTable c) (c : Char) :
    unicode.ToLower caseTable (unicode.ToLower caseTable c) = unicode.ToLower caseTable c := by
  have hA : 'A'.toNat = 65 := rfl
  have hZ : 'Z'.toNat = 90 := rfl
  have ha : 'a'.toNat = 97 := rfl
  by_cases h : c.toNat ≤ 0x7F
  · by_cases hu : 65 ≤ c.toNat ∧ c.toNat ≤ 90
    · have hs := Char.toNat_ofNat_shift c.toNat hu.1 hu.2
      have e1 : unicode.ToLower caseTable c = Char.ofNat (c.toNat + 32) := by
        simp [unicode.ToLower, h, hu, hA, hZ, ha]
      rw [e1]
      simp only [unicode.ToLower, hs, hA, hZ, ha]
      rw [if_pos (by omega), if_neg (by omega)]
    · have e1 : unicode.ToLower caseTable c = c := by
        simp only [unicode.ToLower, h, hA, hZ, if_true, if_neg hu]
      rw [e1, e1]
  · have e1 : unicode.ToLower caseTable c = caseTable c := by
      simp only [unicode.ToLower, if_neg h]
    rw [e1]
    have h' : 0x7F < c.toNat := by omega
    by_cases hc : (caseTable c).toNat ≤ 0x7F
    · have hn := hascii c h' hc
      simp only [unicode.ToLower, hA, hZ, if_pos hc, if_neg hn]
    · simp only [unicode.ToLower, if_neg hc]
      exact hfix c h' (by omega)

theorem sampleCaseTable_idem (c : Char) :
    unicode.ToLower sampleCaseTable (unicode.ToLower sampleCaseTable c)
      = unicode.ToLower sampleCaseTable c := by
  apply unicode.ToLower_idem_of_table
  · intro c h hc
    unfold sampleCaseTable at hc ⊢
    split_ifs at hc ⊢ with h1 h2
    · decide
    · decide
    · omega
  · intro c h hc
    unfold sampleCaseTable at hc ⊢
    split_ifs at hc ⊢ <;> first | rfl | exact absurd hc (by decide)

theorem asciiCaseVariant_linear (caseTable : Char → Char) (s : String)
    (h : asciiCaseVariant s "linear") : strings.ToLower caseTable s = "linear" := by
  obtain ⟨l⟩ := s
  unfold asciiCaseVariant at h
  have hd : "linear".data = ['l', 'i', 'n', 'e', 'a', 'r'] := rfl
  simp only [hd] at h
  rcases List.forall₂_cons_right_iff.mp h with ⟨c1, l1, h1, t1, rfl⟩
  rcases List.forall₂_cons_right_iff.mp t1 with ⟨c2, l2, h2, t2, rfl⟩
  rcases List.forall₂_cons_right_iff.mp t2 with ⟨c3, l3, h3, t3, rfl⟩
  rcases List.forall₂_cons_right_iff.mp t3 with ⟨c4, l4, h4, t4, rfl⟩
  rcases List.forall₂_cons_right_iff.mp t4 with ⟨c5, l5, h5, t5, rfl⟩
  rcases List.forall₂_cons_right_iff.mp t5 with ⟨c6, l6, h6, t6, rfl⟩
  have hnil : l6 = [] := by simpa using t6
  subst hnil
  rcases h1 with rfl | rfl <;> rcases h2 with rfl | rfl <;> rcases h3 with rfl | rfl <;>
    rcases h4 with rfl | rfl <;> rcases h5 with rfl | rfl <;> rcases h6 with rfl | rfl <;> rfl

theorem retryConfig.Backoff_eq_baseline (caseTable : Char → Char) (rc : retryConfig) :
    rc.Backoff caseTable = retry.Linear rc.baseline ∨ rc.Backoff caseTable = retry.None rc.baseline := by
  unfold retryConfig.Backoff retryConfig.baseline
  simp only
  split_ifs <;> simp

theorem retryConfig.Backoff_exponential (caseTable : Char → Char) (ms attempts : Nat) :
    retryConfig.Backoff caseTable ⟨ms, attempts, "exponential"⟩
      = retry.Linear (retryConfig.baseline ⟨ms, attempts, "exponential"⟩) := by
  unfold retryConfig.Backoff retryConfig.baseline
  simp only [strings.ToLower_exponential]
  rw [if_neg (by decide)]
  simp

theorem retryConfig.Backoff_linear (caseTable : Char → Char) (ms attempts : Nat) :
    retryConfig.Backoff caseTable ⟨ms, attempts, "linear"⟩
      = retry.Linear (retryConfig.baseline ⟨ms, attempts, "linear"⟩) := by
  unfold retryConfig.Backoff retryConfig.baseline
  simp only [strings.ToLower_linear]
  simp

theorem retryConfig.baseline_of_le (rc : retryConfig)
    (h : rc.BaselineMilliseconds ≤ 9223372036854) :
    rc.baseline = (rc.BaselineMilliseconds : Int) * 1000000 := by
  unfold retryConfig.baseline time.Duration.mul time.Duration.ofUint time.Millisecond
    wrapInt64 uintRange
  show (_ : Int) = _
  omega

/-- The baseline is the exact product precisely when the configured number of milliseconds
is at most `9223372036854 = (2^63 - 1) / 10^6`. -/
theorem retryConfig.baseline_exact_iff (rc : retryConfig) :
    rc.baseline = (rc.BaselineMilliseconds : Int) * 1000000
      ↔ rc.BaselineMilliseconds ≤ 9223372036854 := by
  constructor
  · intro h
    have hr := wrapInt64_range
      (time.Duration.ofUint rc.BaselineMilliseconds * time.Millisecond)
    unfold retryConfig.baseline time.Duration.mul at h
    rw [h] at hr
    omega
  · exact retryConfig.baseline_of_le rc

theorem succ_lt_two_pow (i : Nat) (h : 2 ≤ i) : i + 1 < 2 ^ i := by
  induction i, h using Nat.le_induction with
  | base => decide
  | succ n hn ih => rw [pow_succ]; omega

/-! ### `fmt.Sprintf` -/

theorem fmt.sprintfAux_text (pre rest : List Char) (args : List fmt.Arg)
    (h : ∀ c ∈ pre, c ≠ '%') :
    fmt.sprintfAux (pre ++ rest) args = pre ++ fmt.sprintfAux rest args := by
  induction pre with
  | nil => rfl
  | cons c pre ih =>
    have hc : c ≠ '%' := h c (List.mem_cons_self _ _)
    have ih' := ih (fun d hd => h d (List.mem_cons_of_mem _ hd))
    rw [List.cons_append, List.cons_append, ← ih']
    rw [fmt.sprintfAux]
    all_goals (intros; contradiction)

theorem fmt.sprintfAux_str (s : String) (rest : List Char) (args : List fmt.Arg) :
    fmt.sprintfAux ('%' :: 's' :: rest) (.str s :: args) = s.data ++ fmt.sprintfAux rest args := by
  rw [fmt.sprintfAux]

theorem fmt.sprintfAux_int (n : Int) (rest : List Char) (args : List fmt.Arg) :
    fmt.sprintfAux ('%' :: 'd' :: rest) (.int n :: args)
      = (toString n).data ++ fmt.sprintfAux rest args := by
  rw [fmt.sprintfAux]

/-- A format with a single `%s` between two texts without `%` prints the operand between
the two texts. -/
theorem fmt.Sprintf_one_str (pre suf : String) (s : String)
    (hpre : ∀ c ∈ pre.data, c ≠ '%') (hsuf : ∀ c ∈ suf.data, c ≠ '%') :
    fmt.Sprintf (pre ++ "%s" ++ suf) [.str s] = pre ++ s ++ suf := by
  apply String.ext
  have hs : "%s".data = ['%', 's'] := rfl
  simp only [fmt.Sprintf, String.data_append, hs, List.append_assoc]
  rw [fmt.sprintfAux_text _ _ _ hpre, List.cons_append, List.cons_append, List.nil_append,
    fmt.sprintfAux_str]
  have := fmt.sprintfAux_text suf.data [] [] hsuf
  rw [List.append_nil] at this
  rw [this]
  simp [fmt.sprintfAux, fmt.extraArgs]

/-- A format `%s<mid>%d-%s`, with `mid` free of `%`, prints the string, `mid`, the int in
decimal, a dash and the second string. -/
theorem fmt.Sprintf_name (mid : String) (p : String) (n : Int) (t : String)
    (hmid : ∀ c ∈ mid.data, c ≠ '%') :
    fmt.Sprintf ("%s" ++ mid ++ "%d-%s") [.str p, .int n, .str t]
      = p ++ mid ++ toString n ++ "-" ++ t := by
  apply String.ext
  have hs : "%s".data = ['%', 's'] := rfl
  have hd : "%d-%s".data = ['%', 'd', '-', '%', 's'] := rfl
  have hm : "-".data = ['-'] := rfl
  simp only [fmt.Sprintf, String.data_append, hs, hd, hm, List.append_assoc, List.cons_append,
    List.nil_append]
  rw [fmt.sprintfAux_str, fmt.sprintfAux_text _ _ _ hmid, fmt.sprintfAux_int]
  have h1 : fmt.sprintfAux ('-' :: '%' :: 's' :: []) [fmt.Arg.str t] = '-' :: t.data := by
    simp [fmt.sprintfAux, fmt.extraArgs]
  rw [h1]

theorem NewContext_name_ne (p m1 m2 r1 r2 : String)
    (h : ∀ x y : List Char, m1.data ++ x ≠ m2.data ++ y) :
    p ++ m1 ++ r1 ≠ p ++ m2 ++ r2 := by
  intro he
  have hd := congrArg String.data he
  simp only [String.data_append, List.append_assoc] at hd
  exact h _ _ (List.append_cancel_left hd)

/-! ### The retry session controller -/

theorem retry.observe_some {predicate : String → Bool} {session : retry.CheckableSession}
    {window d : Nat} (h : retry.observe predicate session window = some d) :
    d < window ∧ d ≤ session.exitAfter ∧ predicate (session.observedOutput d) = true := by
  unfold retry.observe at h
  have hp := List.find?_some h
  have hm := List.mem_of_find?_eq_some h
  rw [List.mem_range] at hm
  exact ⟨by omega, by omega, hp⟩

theorem retry.observe_none {predicate : String → Bool} {session : retry.CheckableSession}
    {window : Nat} (h : retry.observe predicate session window = none) (d : Nat)
    (hw : d < window) (he : d ≤ session.exitAfter) :
    predicate (session.observedOutput d) = false := by
  unfold retry.observe at h
  rw [List.find?_eq_none] at h
  have := h d (by rw [List.mem_range]; omega)
  simpa using this

theorem retry.Controller.lt_remaining_iff (c : retry.Controller) (t d : Nat) :
    ((t + d : Nat) : Int) < c.overallTimeout ↔ d < c.remaining t := by
  unfold retry.Controller.remaining
  constructor <;> intro h <;> omega

theorem retry.Controller.remaining_add (c : retry.Controller) (now x : Nat) :
    c.remaining (now + x) = c.remaining now - x := by
  unfold retry.Controller.remaining
  omega

theorem retry.Controller.window_eq (c : retry.Controller) (hc : c.perAttemptTimeout = none)
    (now : Nat) : min (c.remaining now) c.attemptTimeout = c.remaining now := by
  unfold retry.Controller.attemptTimeout retry.Controller.remaining
  rw [hc]
  simp only [Option.getD_none]
  omega

/-- The five ways an attempt can go, for a controller without a separate per-attempt
timeout: the deadline has elapsed; the spawn fails; the session matches; the deadline
elapses while the session is observed; the next attempt follows, strictly later. -/
theorem retry.Controller.attempt_cases (c : retry.Controller)
    (hc : c.perAttemptTimeout = none)
    (spawn : Nat → Nat → retry.Spawned) (predicate : String → Bool) (i now : Nat) :
    (c.remaining now = 0 ∧
      c.attempt spawn predicate i now
        = retry.Outcome.done (retry.Result.Failure c.failureMessage)) ∨
    (c.remaining now ≠ 0 ∧ ∃ message, spawn i now = Except.error message ∧
      c.attempt spawn predicate i now = retry.Outcome.done (retry.Result.Failure message)) ∨
    (c.remaining now ≠ 0 ∧ ∃ session d, spawn i now = Except.ok session ∧
      d < c.remaining now ∧ d ≤ session.exitAfter ∧
      predicate (session.observedOutput d) = true ∧
      c.attempt spawn predicate i now = retry.Outcome.done retry.Result.Success) ∨
    (c.remaining now ≠ 0 ∧ ∃ session, spawn i now = Except.ok session ∧
      (∀ d, d < c.remaining now → d ≤ session.exitAfter →
        predicate (session.observedOutput d) = false) ∧
      c.attempt spawn predicate i now
        = retry.Outcome.done (retry.Result.Failure c.failureMessage)) ∨
    (c.remaining now ≠ 0 ∧ ∃ session now1, spawn i now = Except.ok session ∧
      (∀ d, d < c.remaining now → d ≤ session.exitAfter →
        predicate (session.observedOutput d) = false) ∧
      c.remaining now1 < c.remaining now ∧
      c.attempt spawn predicate i now = retry.Outcome.again now1) := by
  have hw := retry.Controller.window_eq c hc now
  by_cases h0 : c.remaining now = 0
  · left
    exact ⟨h0, by unfold retry.Controller.attempt; rw [if_pos h0]⟩
  · right
    cases hs : spawn i now with
    | error message =>
      left
      refine ⟨h0, message, rfl, ?_⟩
      unfold retry.Controller.attempt
      rw [if_neg h0]
      simp only [hs]
    | ok session =>
      right
      cases hm : retry.observe predicate session (c.remaining now) with
      | some d =>
        left
        obtain ⟨hd1, hd2, hd3⟩ := retry.observe_some hm
        refine ⟨h0, session, d, rfl, hd1, hd2, hd3, ?_⟩
        unfold retry.Controller.attempt
        rw [if_neg h0]
        simp only [hs, hw, hm]
      | none =>
        right
        have hnone := fun d hd he => retry.observe_none hm d hd he
        by_cases h1 : c.remaining (now + min (c.remaining now) session.exitAfter) = 0
        · left
          refine ⟨h0, session, rfl, hnone, ?_⟩
          unfold retry.Controller.attempt
          rw [if_neg h0]
          simp only [hs, hw, hm, h1, if_true]
        · right
          refine ⟨h0, session,
            now + min (c.remaining now) session.exitAfter
              + min (c.backoff.next i).toNat
                  (c.remaining (now + min (c.remaining now) session.exitAfter)),
            rfl, hnone, ?_, ?_⟩
          rotate_left
          · unfold retry.Controller.attempt
            rw [if_neg h0]
            simp only [hs, hw, hm, h1, if_false]
          · have hrun := session.running
            rw [c.remaining_add] at h1 ⊢
            rw [c.remaining_add]
            generalize (c.backoff.next i).toNat = w
            generalize c.remaining now = R at h0 h1 ⊢
            generalize session.exitAfter = E at hrun h1 ⊢
            omega

theorem retry.Controller.spawnTime_zero (c : retry.Controller)
    (spawn : Nat → Nat → retry.Spawned) (predicate : String → Bool) (i now t : Nat) :
    c.spawnTime spawn predicate 0 i now = some t ↔ c.remaining now ≠ 0 ∧ t = now := by
  simp only [retry.Controller.spawnTime]
  split_ifs with h0
  · simp [h0]
  · simp [h0, eq_comm]

theorem retry.Controller.spawnTime_succ_done (c : retry.Controller)
    (spawn : Nat → Nat → retry.Spawned) (predicate : String → Bool) (k i now : Nat)
    (result : retry.Result)
    (h : c.attempt spawn predicate i now = retry.Outcome.done result) :
    c.spawnTime spawn predicate (k + 1) i now = none := by
  simp only [retry.Controller.spawnTime, h]

theorem retry.Controller.spawnTime_succ_again (c : retry.Controller)
    (spawn : Nat → Nat → retry.Spawned) (predicate : String → Bool) (k i now now1 : Nat)
    (h : c.attempt spawn predicate i now = retry.Outcome.again now1) :
    c.spawnTime spawn predicate (k + 1) i now
      = c.spawnTime spawn predicate k (i + 1) now1 := by
  simp only [retry.Controller.spawnTime, h]

/-- The loop of the controller, from any attempt on, when the fuel exceeds the remaining
time: it returns a result; the result is *Success* exactly when some later attempt spawns a
session whose output matches before the deadline; a failing spawn ends the run at once with
the message of the spawn error; and with no match and no failing spawn the result is
*Failure* with the configured message. -/
theorem retry.Controller.runLoop_spec (c : retry.Controller) (hc : c.perAttemptTimeout = none)
    (spawn : Nat → Nat → retry.Spawned) (predicate : String → Bool) :
    ∀ fuel i now, c.remaining now < fuel →
      ∃ result, c.runLoop spawn predicate fuel i now = some result ∧
        (result = retry.Result.Success ↔
          ∃ k t session d, c.spawnTime spawn predicate k i now = some t ∧
            spawn (i + k) t = Except.ok session ∧
            d ≤ session.exitAfter ∧
            predicate (session.observedOutput d) = true ∧
            ((t + d : Nat) : Int) < c.overallTimeout) ∧
        (∀ k t message, c.spawnTime spawn predicate k i now = some t →
          spawn (i + k) t = Except.error message →
          result = retry.Result.Failure message ∧
            c.spawnTime spawn predicate (k + 1) i now = none) ∧
        (result ≠ retry.Result.Success →
          (∀ k t message, c.spawnTime spawn predicate k i now = some t →
            spawn (i + k) t ≠ Except.error message) →
          result = retry.Result.Failure c.failureMessage) := by
  intro fuel
  induction fuel with
  | zero => intro i now h; omega
  | succ fuel ih =>
    intro i now hfuel
    rcases c.attempt_cases hc spawn predicate i now with
      ⟨h0, ha⟩ | ⟨h0, message, hs, ha⟩ | ⟨h0, session, d, hs, hd1, hd2, hd3, ha⟩ |
      ⟨h0, session, hs, hnone, ha⟩ | ⟨h0, session, now1, hs, hnone, hlt, ha⟩
    · -- the deadline has elapsed: nothing is spawned
      refine ⟨retry.Result.Failure c.failureMessage, by simp [retry.Controller.runLoop, ha], ?_, ?_, ?_⟩
      · constructor
        · intro h; exact absurd h (by simp)
        · rintro ⟨k, t, session, d, hk, -⟩
          cases k with
          | zero => exact absurd ((c.spawnTime_zero spawn predicate i now t).mp hk).1 (by simp [h0])
          | succ k => rw [c.spawnTime_succ_done spawn predicate k i now _ ha] at hk; simp at hk
      · intro k t message hk _
        cases k with
        | zero => exact absurd ((c.spawnTime_zero spawn predicate i now t).mp hk).1 (by simp [h0])
        | succ k => rw [c.spawnTime_succ_done spawn predicate k i now _ ha] at hk; simp at hk
      · intro _ _; rfl
    · -- the spawn fails
      refine ⟨retry.Result.Failure message, by simp [retry.Controller.runLoop, ha], ?_, ?_, ?_⟩
      · constructor
        · intro h; exact absurd h (by simp)
        · rintro ⟨k, t, session, d, hk, hok, -⟩
          cases k with
          | zero =>
            obtain ⟨-, rfl⟩ := (c.spawnTime_zero spawn predicate i now t).mp hk
            rw [Nat.add_zero, hs] at hok
            exact absurd hok (by simp)
          | succ k => rw [c.spawnTime_succ_done spawn predicate k i now _ ha] at hk; simp at hk
      · intro k t message1 hk herr
        cases k with
        | zero =>
          obtain ⟨-, rfl⟩ := (c.spawnTime_zero spawn predicate i now t).mp hk
          rw [Nat.add_zero, hs] at herr
          simp only [Except.error.injEq] at herr
          subst herr
          exact ⟨rfl, c.spawnTime_succ_done spawn predicate 0 i t _ ha⟩
        | succ k => rw [c.spawnTime_succ_done spawn predicate k i now _ ha] at hk; simp at hk
      · intro _ hall
        exact absurd hs (hall 0 now message
          ((c.spawnTime_zero spawn predicate i now now).mpr ⟨h0, rfl⟩))
    · -- the session matches
      refine ⟨retry.Result.Success, by simp [retry.Controller.runLoop, ha], ?_, ?_, ?_⟩
      · constructor
        · intro _
          exact ⟨0, now, session, d, (c.spawnTime_zero spawn predicate i now now).mpr ⟨h0, rfl⟩,
            hs, hd2, hd3, (c.lt_remaining_iff now d).mpr hd1⟩
        · intro _; rfl
      · intro k t message hk herr
        cases k with
        | zero =>
          obtain ⟨-, rfl⟩ := (c.spawnTime_zero spawn predicate i now t).mp hk
          rw [Nat.add_zero, hs] at herr
          exact absurd herr (by simp)
        | succ k => rw [c.spawnTime_succ_done spawn predicate k i now _ ha] at hk; simp at hk
      · intro hne; exact absurd rfl hne
    · -- the deadline elapses during the observation
      refine ⟨retry.Result.Failure c.failureMessage, by simp [retry.Controller.runLoop, ha], ?_, ?_, ?_⟩
      · constructor
        · intro h; exact absurd h (by simp)
        · rintro ⟨k, t, session1, d, hk, hok, hd1, hd2, hd3⟩
          cases k with
          | zero =>
            obtain ⟨-, rfl⟩ := (c.spawnTime_zero spawn predicate i now t).mp hk
            rw [Nat.add_zero, hs] at hok
            simp only [Except.ok.injEq] at hok
            subst hok
            have := hnone d ((c.lt_remaining_iff t d).mp hd3) hd1
            rw [hd2] at this
            exact absurd this (by simp)
          | succ k => rw [c.spawnTime_succ_done spawn predicate k i now _ ha] at hk; simp at hk
      · intro k t message hk herr
        cases k with
        | zero =>
          obtain ⟨-, rfl⟩ := (c.spawnTime_zero spawn predicate i now t).mp hk
          rw [Nat.add_zero, hs] at herr
          exact absurd herr (by simp)
        | succ k => rw [c.spawnTime_succ_done spawn predicate k i now _ ha] at hk; simp at hk
      · intro _ _; rfl
    · -- the next attempt follows
      obtain ⟨result, hr, hiff, hfatal, hfail⟩ := ih (i + 1) now1 (by omega)
      refine ⟨result, by simp [retry.Controller.runLoop, ha, hr], ?_, ?_, ?_⟩
      · rw [hiff]
        constructor
        · rintro ⟨k, t, session1, d, hk, hok, hd⟩
          refine ⟨k + 1, t, session1, d, ?_, ?_, hd⟩
          · rw [c.spawnTime_succ_again spawn predicate k i now now1 ha]; exact hk
          · rw [show i + (k + 1) = i + 1 + k by omega]; exact hok
        · rintro ⟨k, t, session1, d, hk, hok, hd1, hd2, hd3⟩
          cases k with
          | zero =>
            exfalso
            obtain ⟨-, rfl⟩ := (c.spawnTime_zero spawn predicate i now t).mp hk
            rw [Nat.add_zero, hs] at hok
            simp only [Except.ok.injEq] at hok
            subst hok
            have := hnone d ((c.lt_remaining_iff t d).mp hd3) hd1
            rw [hd2] at this
            exact absurd this (by simp)
          | succ k =>
            rw [c.spawnTime_succ_again spawn predicate k i now now1 ha] at hk
            refine ⟨k, t, session1, d, hk, ?_, hd1, hd2, hd3⟩
            rw [show i + 1 + k = i + (k + 1) by omega]; exact hok
      · intro k t message hk herr
        cases k with
        | zero =>
          obtain ⟨-, rfl⟩ := (c.spawnTime_zero spawn predicate i now t).mp hk
          rw [Nat.add_zero, hs] at herr
          exact absurd herr (by simp)
        | succ k =>
          rw [c.spawnTime_succ_again spawn predicate k i now now1 ha] at hk
          rw [show i + (k + 1) = i + 1 + k by omega] at herr
          obtain ⟨h1, h2⟩ := hfatal k t message hk herr
          refine ⟨h1, ?_⟩
          rw [c.spawnTime_succ_again spawn predicate (k + 1) i now now1 ha]
          exact h2
      · intro hne hall
        apply hfail hne
        intro k t message hk herr
        apply hall (k + 1) t message
        · rw [c.spawnTime_succ_again spawn predicate k i now now1 ha]; exact hk
        · rw [show i + (k + 1) = i + 1 + k by omega]; exact herr

/-- Three runs of the model: in the sample world the second session prints "success" and
the run of `Write` succeeds; in the silent world the run fails with the message of the
probe; in the broken world it fails at once with the message of the spawn error. -/
theorem retry.Run.Until_samples :
    ((NewApp "http://app" 350 100).Write "k" "v").Until sampleWorld
      ((NewApp "http://app" 350 100).Write "k" "v").acceptsOutput = some retry.Result.Success ∧
    ((NewApp "http://app" 350 100).Write "k" "v").Until silentWorld
      ((NewApp "http://app" 350 100).Write "k" "v").acceptsOutput
      = some (retry.Result.Failure "\x7b\"FailReason\": \"Failed to put to http://app/k\"\x7d") ∧
    ((NewApp "http://app" 350 100).Write "k" "v").Until brokenWorld
      ((NewApp "http://app" 350 100).Write "k" "v").acceptsOutput
      = some (retry.Result.Failure "exec: \"curl\": executable file not found in $PATH") := by
  refine ⟨?_, ?_, ?_⟩ <;> decide

/-! ### Regular expressions: the matcher decides the language, plain texts compile to
themselves -/

namespace regexp

theorem Regexp.nullable_iff (r : Regexp) : r.nullable = true ↔ r.Matches [] := by
  induction r with
  | noMatch => simp only [Regexp.nullable]; constructor <;> intro h <;> cases h
  | emptyMatch => simp only [Regexp.nullable]; exact ⟨fun _ => .emptyMatch, fun _ => trivial⟩
  | literal c => simp only [Regexp.nullable]; constructor <;> intro h <;> cases h
  | anyCharNotNL => simp only [Regexp.nullable]; constructor <;> intro h <;> cases h
  | concat a b iha ihb =>
    simp only [Regexp.nullable, Bool.and_eq_true, iha, ihb]
    constructor
    · rintro ⟨ha, hb⟩
      exact Regexp.Matches.concat ha hb
    · intro h
      generalize hw : ([] : List Char) = w at h
      cases h with
      | concat ha hb =>
        rename_i u v
        have hu : u = [] := by
          cases u with
          | nil => rfl
          | cons _ _ => simp at hw
        have hv : v = [] := by
          cases v with
          | nil => rfl
          | cons _ _ => simp [hu] at hw
        subst hu hv
        exact ⟨ha, hb⟩
  | alternate a b iha ihb =>
    simp only [Regexp.nullable, Bool.or_eq_true, iha, ihb]
    constructor
    · rintro (h | h)
      · exact .alternateLeft h
      · exact .alternateRight h
    · intro h
      cases h with
      | alternateLeft h => exact Or.inl h
      | alternateRight h => exact Or.inr h
  | star a _ => simp only [Regexp.nullable]; exact ⟨fun _ => .starNil, fun _ => trivial⟩
  | plus a iha =>
    simp only [Regexp.nullable, iha]
    constructor
    · intro h
      exact Regexp.Matches.plus h .starNil
    · intro h
      generalize hw : ([] : List Char) = w at h
      cases h with
      | plus ha hb =>
        rename_i u v
        have hu : u = [] := by
          cases u with
          | nil => rfl
          | cons _ _ => simp at hw
        have hv : v = [] := by
          cases v with
          | nil => rfl
          | cons _ _ => simp [hu] at hw
        subst hu hv
        exact ha
  | quest a _ => simp only [Regexp.nullable]; exact ⟨fun _ => .questNil, fun _ => trivial⟩

theorem Regexp.matches_concat_iff (a b : Regexp) (x : List Char) :
    (Regexp.concat a b).Matches x ↔ ∃ u v, x = u ++ v ∧ a.Matches u ∧ b.Matches v := by
  constructor
  · intro h
    cases h with
    | concat ha hb => exact ⟨_, _, rfl, ha, hb⟩
  · rintro ⟨u, v, rfl, ha, hb⟩
    exact .concat ha hb

theorem Regexp.matches_alternate_iff (a b : Regexp) (x : List Char) :
    (Regexp.alternate a b).Matches x ↔ a.Matches x ∨ b.Matches x := by
  constructor
  · intro h
    cases h with
    | alternateLeft h => exact Or.inl h
    | alternateRight h => exact Or.inr h
  · rintro (h | h)
    · exact .alternateLeft h
    · exact .alternateRight h

theorem Regexp.matches_star_cons (a : Regexp) (c : Char) (w : List Char) :
    (Regexp.star a).Matches (c :: w) ↔
      ∃ u v, w = u ++ v ∧ a.Matches (c :: u) ∧ (Regexp.star a).Matches v := by
  constructor
  · intro h
    generalize hr : Regexp.star a = r at h
    generalize hx : c :: w = x at h
    induction h generalizing w with
    | starNil => simp at hx
    | @starCons a1 u v ha hs _ ihs =>
      simp only [Regexp.star.injEq] at hr
      subst hr
      cases u with
      | nil =>
        have hx1 : c :: w = v := hx
        exact ihs w rfl hx1
      | cons d u1 =>
        have hx1 : c :: w = d :: (u1 ++ v) := hx
        simp only [List.cons.injEq] at hx1
        obtain ⟨rfl, rfl⟩ := hx1
        exact ⟨u1, v, rfl, ha, hs⟩
    | emptyMatch => simp at hr
    | literal => simp at hr
    | anyCharNotNL => simp at hr
    | concat => simp at hr
    | alternateLeft => simp at hr
    | alternateRight => simp at hr
    | plus => simp at hr
    | questNil => simp at hr
    | quest => simp at hr
  · rintro ⟨u, v, rfl, ha, hs⟩
    exact Regexp.Matches.starCons ha hs

theorem Regexp.matches_cons_split {P Q : List Char → Prop} (c : Char) (w : List Char) :
    (∃ u v, c :: w = u ++ v ∧ P u ∧ Q v) ↔
      (P [] ∧ Q (c :: w)) ∨ ∃ u v, w = u ++ v ∧ P (c :: u) ∧ Q v := by
  constructor
  · rintro ⟨u, v, h, hp, hq⟩
    cases u with
    | nil =>
      simp only [List.nil_append] at h
      subst h
      exact Or.inl ⟨hp, hq⟩
    | cons d u1 =>
      simp only [List.cons_append, List.cons.injEq] at h
      obtain ⟨rfl, rfl⟩ := h
      exact Or.inr ⟨u1, v, rfl, hp, hq⟩
  · rintro (⟨hp, hq⟩ | ⟨u, v, rfl, hp, hq⟩)
    · exact ⟨[], c :: w, rfl, hp, hq⟩
    · exact ⟨c :: u, v, rfl, hp, hq⟩

theorem Regexp.deriv_iff (r : Regexp) (c : Char) (w : List Char) :
    (r.deriv c).Matches w ↔ r.Matches (c :: w) := by
  induction r generalizing w with
  | noMatch => simp only [Regexp.deriv]; constructor <;> intro h <;> cases h
  | emptyMatch => simp only [Regexp.deriv]; constructor <;> intro h <;> cases h
  | literal c1 =>
    simp only [Regexp.deriv]
    split_ifs with hc
    · subst hc
      constructor
      · intro h; cases h; exact .literal _
      · intro h; cases h; exact .emptyMatch
    · constructor
      · intro h; cases h
      · intro h; cases h; exact absurd rfl hc
  | anyCharNotNL =>
    simp only [Regexp.deriv]
    split_ifs with hc
    · constructor
      · intro h; cases h
      · intro h
        cases h with
        | anyCharNotNL _ hd => exact absurd hc hd
    · constructor
      · intro h; cases h; exact .anyCharNotNL _ hc
      · intro h; cases h; exact .emptyMatch
  | concat a b iha ihb =>
    rw [Regexp.matches_concat_iff, Regexp.matches_cons_split]
    simp only [Regexp.deriv]
    split_ifs with hn
    · rw [Regexp.matches_alternate_iff, Regexp.matches_concat_iff, ihb]
      have hn1 := (Regexp.nullable_iff a).mp hn
      constructor
      · rintro (⟨u, v, rfl, ha, hb⟩ | hb)
        · exact Or.inr ⟨u, v, rfl, (iha u).mp ha, hb⟩
        · exact Or.inl ⟨hn1, hb⟩
      · rintro (⟨_, hb⟩ | ⟨u, v, rfl, ha, hb⟩)
        · exact Or.inr hb
        · exact Or.inl ⟨u, v, rfl, (iha u).mpr ha, hb⟩
    · rw [Regexp.matches_concat_iff]
      constructor
      · rintro ⟨u, v, rfl, ha, hb⟩
        exact Or.inr ⟨u, v, rfl, (iha u).mp ha, hb⟩
      · rintro (⟨ha, _⟩ | ⟨u, v, rfl, ha, hb⟩)
        · exact absurd ((Regexp.nullable_iff a).mpr ha) hn
        · exact ⟨u, v, rfl, (iha u).mpr ha, hb⟩
  | alternate a b iha ihb =>
    simp only [Regexp.deriv]
    rw [Regexp.matches_alternate_iff, Regexp.matches_alternate_iff, iha, ihb]
  | star a iha =>
    simp only [Regexp.deriv]
    rw [Regexp.matches_concat_iff, Regexp.matches_star_cons]
    constructor
    · rintro ⟨u, v, rfl, ha, hs⟩
      exact ⟨u, v, rfl, (iha u).mp ha, hs⟩
    · rintro ⟨u, v, rfl, ha, hs⟩
      exact ⟨u, v, rfl, (iha u).mpr ha, hs⟩
  | plus a iha =>
    simp only [Regexp.deriv]
    rw [Regexp.matches_concat_iff]
    constructor
    · rintro ⟨u, v, rfl, ha, hs⟩
      exact Regexp.Matches.plus (u := c :: u) ((iha u).mp ha) hs
    · intro h
      generalize hx : c :: w = x at h
      cases h with
      | plus ha hs =>
        rename_i u v
        cases u with
        | nil =>
          simp only [List.nil_append] at hx
          subst hx
          obtain ⟨u1, v1, rfl, ha1, hs1⟩ := (Regexp.matches_star_cons a c w).mp hs
          exact ⟨u1, v1, rfl, (iha u1).mpr ha1, hs1⟩
        | cons d u1 =>
          simp only [List.cons_append, List.cons.injEq] at hx
          obtain ⟨rfl, rfl⟩ := hx
          exact ⟨u1, v, rfl, (iha u1).mpr ha, hs⟩
  | quest a iha =>
    simp only [Regexp.deriv]
    rw [iha]
    constructor
    · intro h; exact .quest h
    · intro h
      cases h with
      | quest h => exact h

theorem Regexp.matchPrefix_iff (r : Regexp) (text : List Char) :
    r.matchPrefix text = true ↔ ∃ u v, text = u ++ v ∧ r.Matches u := by
  induction text generalizing r with
  | nil =>
    simp only [Regexp.matchPrefix, Regexp.nullable_iff]
    constructor
    · intro h; exact ⟨[], [], rfl, h⟩
    · rintro ⟨u, v, h, hm⟩
      have hu : u = [] := by
        cases u with
        | nil => rfl
        | cons _ _ => simp at h
      subst hu
      exact hm
  | cons c text ih =>
    simp only [Regexp.matchPrefix, Bool.or_eq_true, Regexp.nullable_iff, ih]
    constructor
    · rintro (h | ⟨u, v, rfl, hm⟩)
      · exact ⟨[], _, rfl, h⟩
      · exact ⟨c :: u, v, rfl, (Regexp.deriv_iff r c u).mp hm⟩
    · rintro ⟨u, v, h, hm⟩
      cases u with
      | nil => exact Or.inl hm
      | cons d u1 =>
        have h1 : c :: text = d :: (u1 ++ v) := h
        simp only [List.cons.injEq] at h1
        obtain ⟨rfl, rfl⟩ := h1
        exact Or.inr ⟨u1, v, rfl, (Regexp.deriv_iff r c u1).mpr hm⟩

/-- `MatchString` decides whether some substring of the text is matched in full. -/
theorem Regexp.matchSubstring_iff (r : Regexp) (text : List Char) :
    r.matchSubstring text = true ↔ ∃ u, u <:+: text ∧ r.Matches u := by
  induction text with
  | nil =>
    simp only [Regexp.matchSubstring, Regexp.nullable_iff]
    constructor
    · intro h; exact ⟨[], List.infix_refl _, h⟩
    · rintro ⟨u, hu, hm⟩
      have : u = [] := List.eq_nil_of_infix_nil hu
      subst this
      exact hm
  | cons c text ih =>
    simp only [Regexp.matchSubstring, Bool.or_eq_true, ih, Regexp.matchPrefix_iff]
    constructor
    · rintro (⟨u, v, h, hm⟩ | ⟨u, hu, hm⟩)
      · exact ⟨u, ⟨[], v, by simp [h]⟩, hm⟩
      · exact ⟨u, List.infix_cons hu, hm⟩
    · rintro ⟨u, hu, hm⟩
      rcases List.infix_cons_iff.mp hu with hp | hi
      · obtain ⟨v, hv⟩ := hp
        exact Or.inl ⟨u, v, hv.symm, hm⟩
      · exact Or.inr ⟨u, hi, hm⟩

theorem splitTop_map_re (rs : List Regexp) :
    splitTop (rs.map StackItem.re) = (rs.reverse, []) := by
  induction rs with
  | nil => rfl
  | cons r rs ih => simp [splitTop, ih]

theorem finish_map_re (rs : List Regexp) :
    finish (rs.map StackItem.re) = CompileResult.ok (collapseConcat rs.reverse) := by
  simp [finish, concat, alternate, popVerticalBar, splitTop_map_re, splitTop, collapseAlternate]

theorem collapseConcat_literals_matches (l : List Char) :
    (collapseConcat (l.map Regexp.literal)).Matches l := by
  induction l with
  | nil => exact .emptyMatch
  | cons c rest ih =>
    cases rest with
    | nil => exact .literal c
    | cons d rest1 =>
      exact Regexp.Matches.concat (u := [c]) (.literal c) ih

theorem parseLoop_literal (c : Char) (rest : List Char) (stack : List StackItem)
    (lastRepeat : Bool) (hc : special c = false) :
    parseLoop (c :: rest) stack lastRepeat
      = parseLoop rest (StackItem.re (Regexp.literal c) :: stack) false := by
  simp only [special, Bool.or_eq_false_iff, decide_eq_false_iff_not] at hc
  obtain ⟨⟨⟨⟨⟨⟨⟨⟨⟨⟨⟨⟨⟨h1, h2⟩, h3⟩, h4⟩, h5⟩, h6⟩, h7⟩, h8⟩, h9⟩, h10⟩, h11⟩, h12⟩, h13⟩, h14⟩ := hc
  rw [parseLoop]
  · simp [h1, h9, h10, h11, h12, h13, h14]
  all_goals (intros; simp_all)

theorem parseLoop_literals (l : List Char) (rs : List Regexp) (lastRepeat : Bool)
    (h : ∀ c ∈ l, special c = false) :
    parseLoop l (rs.map StackItem.re) lastRepeat
      = CompileResult.ok (collapseConcat (rs.reverse ++ l.map Regexp.literal)) := by
  induction l generalizing rs lastRepeat with
  | nil => simp [parseLoop, finish_map_re]
  | cons c rest ih =>
    rw [parseLoop_literal c rest _ _ (h c (List.mem_cons_self _ _))]
    have := ih (Regexp.literal c :: rs) false (fun d hd => h d (List.mem_cons_of_mem _ hd))
    simpa using this

/-- An expression without special runes compiles to the concatenation of its runes. -/
theorem Compile_literals (expr : String) (h : ∀ c ∈ expr.data, special c = false) :
    Compile expr = CompileResult.ok (collapseConcat (expr.data.map Regexp.literal)) := by
  have := parseLoop_literals expr.data [] false h
  simpa [Compile] using this

end regexp

/-- When `expectedValue` holds none of the runes `regexp.QuoteMeta` escapes, the predicate
of `ReadAssert` is built without a panic and accepts every response that contains
`expectedValue` verbatim. -/
theorem App.ReadAssert_accepts_plain_value (app : App) (key expectedValue response : String)
    (hplain : ∀ c ∈ expectedValue.data, regexp.special c = false)
    (hsub : expectedValue.data <:+: response.data) :
    (app.ReadAssert key expectedValue).checkOutput response
      = retry.PredicateOutcome.accepts := by
  show retry.matchesPattern expectedValue response = _
  unfold retry.matchesPattern regexp.MustCompile
  rw [regexp.Compile_literals expectedValue hplain]
  have hm : retry.MatchesOutput
      (regexp.collapseConcat (expectedValue.data.map regexp.Regexp.literal)) response = true := by
    unfold retry.MatchesOutput regexp.Regexp.MatchString
    rw [regexp.Regexp.matchSubstring_iff]
    exact ⟨expectedValue.data, hsub, regexp.collapseConcat_literals_matches _⟩
  simp [hm]

/-! ## The claims -/

/-- C1: when the lower-cased `BackoffAlgorithm` is neither "linear" nor "exponential",
`Backoff()` returns `retry.None(baseline)`, the very policy the kind "none" yields for the
same configuration; `baseline` is `time.Duration(BaselineMilliseconds) * time.Millisecond`,
which is `BaselineMilliseconds` milliseconds as long as the product fits in an `int64`. -/
theorem C1_unrecognized_kind_is_none (caseTable : Char → Char) (rc : retryConfig)
    (hl : strings.ToLower caseTable rc.BackoffAlgorithm ≠ "linear")
    (he : strings.ToLower caseTable rc.BackoffAlgorithm ≠ "exponential") :
    rc.Backoff caseTable = retry.None rc.baseline ∧
    rc.Backoff caseTable
      = retryConfig.Backoff caseTable { rc with BackoffAlgorithm := "none" } ∧
    (rc.BaselineMilliseconds ≤ 9223372036854 →
      rc.baseline = (rc.BaselineMilliseconds : Int) * 1000000) := by
  refine ⟨?_, ?_, retryConfig.baseline_of_le rc⟩
  · unfold retryConfig.Backoff retryConfig.baseline
    simp only [hl, he, if_false]
  · unfold retryConfig.Backoff
    simp only [hl, he, if_false, strings.ToLower_none]
    rw [if_neg (by decide), if_neg (by decide)]

/-- C1 at the kinds "foo" (with a 100 ms baseline) and "" (the empty string). -/
theorem C1_unrecognized_kind_is_none_witness :
    (strings.ToLower id "foo" ≠ "linear" ∧ strings.ToLower id "foo" ≠ "exponential") ∧
    (retryConfig.Backoff id ⟨100, 3, "foo"⟩ = retry.None 100000000 ∧
     retryConfig.Backoff id ⟨100, 3, "foo"⟩ = retryConfig.Backoff id ⟨100, 3, "none"⟩ ∧
     ((100 : Nat) ≤ 9223372036854 →
       retryConfig.baseline ⟨100, 3, "foo"⟩ = ((100 : Nat) : Int) * 1000000)) ∧
    (retryConfig.Backoff id ⟨100, 3, ""⟩ = retry.None 100000000 ∧
     retryConfig.Backoff id ⟨100, 3, ""⟩ = retryConfig.Backoff id ⟨100, 3, "none"⟩ ∧
     ((100 : Nat) ≤ 9223372036854 →
       retryConfig.baseline ⟨100, 3, ""⟩ = ((100 : Nat) : Int) * 1000000)) :=
  ⟨⟨by decide, by decide⟩,
   C1_unrecognized_kind_is_none id ⟨100, 3, "foo"⟩ (by decide) (by decide),
   C1_unrecognized_kind_is_none id ⟨100, 3, ""⟩ (by decide) (by decide)⟩

/-- C2: `Backoff()` selects the policy case-insensitively. For a case table on which
lower-casing is idempotent (as Unicode lower-casing is), the policy for `BackoffAlgorithm = s`
is the policy for `BackoffAlgorithm = strings.ToLower(s)`, with the same baseline; and every
ASCII upper/lower-case variant of "linear" yields `retry.Linear(baseline)`, not the `None`
fallback. -/
theorem C2_backoff_case_insensitive (caseTable : Char → Char)
    (hidem : ∀ c, unicode.ToLower caseTable (unicode.ToLower caseTable c)
      = unicode.ToLower caseTable c)
    (rc : retryConfig) (s : String) :
    (retryConfig.Backoff caseTable ⟨rc.BaselineMilliseconds, rc.Attempts, s⟩
      = retryConfig.Backoff caseTable
          ⟨rc.BaselineMilliseconds, rc.Attempts, strings.ToLower caseTable s⟩) ∧
    (asciiCaseVariant s "linear" →
      retryConfig.Backoff caseTable ⟨rc.BaselineMilliseconds, rc.Attempts, s⟩
        = retry.Linear rc.baseline ∧
      retryConfig.Backoff caseTable ⟨rc.BaselineMilliseconds, rc.Attempts, s⟩
        ≠ retry.None rc.baseline) := by
  constructor
  · unfold retryConfig.Backoff
    simp only [strings.ToLower_idem caseTable hidem]
  · intro hv
    have hl := asciiCaseVariant_linear caseTable s hv
    unfold retryConfig.Backoff retryConfig.baseline
    simp only [hl, if_true]
    exact ⟨trivial, by simp⟩

/-- C2 at the kind "lInEaR", with the sample case table. -/
theorem C2_backoff_case_insensitive_witness :
    (∀ c, unicode.ToLower sampleCaseTable (unicode.ToLower sampleCaseTable c)
      = unicode.ToLower sampleCaseTable c) ∧
    (retryConfig.Backoff sampleCaseTable ⟨100, 3, "lInEaR"⟩
      = retryConfig.Backoff sampleCaseTable
          ⟨100, 3, strings.ToLower sampleCaseTable "lInEaR"⟩) ∧
    (asciiCaseVariant "lInEaR" "linear" →
      retryConfig.Backoff sampleCaseTable ⟨100, 3, "lInEaR"⟩ = retry.Linear 100000000 ∧
      retryConfig.Backoff sampleCaseTable ⟨100, 3, "lInEaR"⟩ ≠ retry.None 100000000) :=
  ⟨sampleCaseTable_idem,
   C2_backoff_case_insensitive sampleCaseTable sampleCaseTable_idem ⟨100, 3, ""⟩ "lInEaR"⟩

/-- C3 (amended): for every baseline, `Backoff()` with kind "exponential" returns exactly the
policy it returns with kind "linear", namely `retry.Linear(baseline)`; so at every attempt
index the two waits are equal, and that wait differs from `baseline * 2^attemptIndex`
exactly when the baseline is non-zero and the attempt index is at least 2. -/
theorem C3_exponential_same_as_linear (caseTable : Char → Char) (ms attempts : Nat) (i : Nat) :
    retryConfig.Backoff caseTable ⟨ms, attempts, "exponential"⟩
      = retryConfig.Backoff caseTable ⟨ms, attempts, "linear"⟩ ∧
    retryConfig.Backoff caseTable ⟨ms, attempts, "exponential"⟩
      = retry.Linear (retryConfig.baseline ⟨ms, attempts, "exponential"⟩) ∧
    (retryConfig.Backoff caseTable ⟨ms, attempts, "exponential"⟩).next i
      = (retryConfig.Backoff caseTable ⟨ms, attempts, "linear"⟩).next i ∧
    ((retryConfig.Backoff caseTable ⟨ms, attempts, "exponential"⟩).next i
        ≠ retryConfig.baseline ⟨ms, attempts, "exponential"⟩ * 2 ^ i
      ↔ retryConfig.baseline ⟨ms, attempts, "exponential"⟩ ≠ 0 ∧ 2 ≤ i) := by
  have he := retryConfig.Backoff_exponential caseTable ms attempts
  have hl := retryConfig.Backoff_linear caseTable ms attempts
  have hb : retryConfig.baseline ⟨ms, attempts, "exponential"⟩
      = retryConfig.baseline ⟨ms, attempts, "linear"⟩ := rfl
  refine ⟨by rw [he, hl, hb], he, by rw [he, hl, hb], ?_⟩
  rw [he]
  simp only [retry.Backoff.next]
  generalize retryConfig.baseline ⟨ms, attempts, "exponential"⟩ = b
  constructor
  · intro hne
    refine ⟨fun hb0 => hne (by rw [hb0]; simp), ?_⟩
    by_contra hlt
    have hi : i = 0 ∨ i = 1 := by omega
    rcases hi with rfl | rfl <;> exact hne (by norm_num)
  · rintro ⟨hb0, hi⟩ heq
    have h1 : ((i : Int) + 1) = 2 ^ i := mul_left_cancel₀ hb0 heq
    have h2 := succ_lt_two_pow i hi
    have h3 : ((i + 1 : Nat) : Int) = ((2 ^ i : Nat) : Int) := by push_cast; exact h1
    have h4 : i + 1 = 2 ^ i := by exact_mod_cast h3
    omega

/-- C3 (as stated) fails: with a 100 ms baseline the wait configured by "exponential" at
attempt indices 0 and 1 is `baseline * 2^attemptIndex`, and with a zero baseline it is so at
every index (here 5). -/
theorem C3_counterexample :
    (retryConfig.Backoff id ⟨100, 3, "exponential"⟩).next 0
      = retryConfig.baseline ⟨100, 3, "exponential"⟩ * 2 ^ 0 ∧
    (retryConfig.Backoff id ⟨100, 3, "exponential"⟩).next 1
      = retryConfig.baseline ⟨100, 3, "exponential"⟩ * 2 ^ 1 ∧
    (retryConfig.Backoff id ⟨0, 3, "exponential"⟩).next 5
      = retryConfig.baseline ⟨0, 3, "exponential"⟩ * 2 ^ 5 := by
  decide

/-- C4: for every baseline and every attempt index `i`, the linear policy waits
`baseline * (i + 1)`; this is the policy `Backoff()` returns for kind "linear". -/
theorem C4_linear_wait (caseTable : Char → Char) (baseline : time.Duration)
    (ms attempts : Nat) (i : Nat) :
    (retry.Linear baseline).next i = baseline * ((i : Int) + 1) ∧
    retryConfig.Backoff caseTable ⟨ms, attempts, "linear"⟩
      = retry.Linear (retryConfig.baseline ⟨ms, attempts, "linear"⟩) ∧
    (retryConfig.Backoff caseTable ⟨ms, attempts, "linear"⟩).next i
      = retryConfig.baseline ⟨ms, attempts, "linear"⟩ * ((i : Int) + 1) := by
  refine ⟨rfl, retryConfig.Backoff_linear caseTable ms attempts, ?_⟩
  rw [retryConfig.Backoff_linear]
  rfl

/-- C5 (amended): for every `retryConfig` whose `BaselineMilliseconds` is at most
9223372036854 (and every backoff kind), the baseline handed to the policy is exactly
`BaselineMilliseconds * 10^6` nanoseconds (no overflow), it is non-negative, and the wait
of the configured policy at attempt index 0 is that baseline, hence non-negative. -/
theorem C5_baseline_nonneg_of_bounded (caseTable : Char → Char) (rc : retryConfig)
    (h : rc.BaselineMilliseconds ≤ 9223372036854) :
    rc.baseline = (rc.BaselineMilliseconds : Int) * 1000000 ∧
    0 ≤ rc.baseline ∧
    (rc.Backoff caseTable).next 0 = rc.baseline ∧
    0 ≤ (rc.Backoff caseTable).next 0 := by
  have hb := retryConfig.baseline_of_le rc h
  have h0 : 0 ≤ rc.baseline := by
    rw [hb]
    show (0 : Int) ≤ _
    omega
  have hn : (rc.Backoff caseTable).next 0 = rc.baseline := by
    rcases retryConfig.Backoff_eq_baseline caseTable rc with e | e <;> rw [e] <;>
      simp [retry.Backoff.next]
  exact ⟨hb, h0, hn, by rw [hn]; exact h0⟩

/-- C5 (amended) at a 250 ms baseline and the kind "Exponential". -/
theorem C5_baseline_nonneg_of_bounded_witness :
    (250 : Nat) ≤ 9223372036854 ∧
    (retryConfig.baseline ⟨250, 3, "Exponential"⟩ = ((250 : Nat) : Int) * 1000000 ∧
     0 ≤ retryConfig.baseline ⟨250, 3, "Exponential"⟩ ∧
     (retryConfig.Backoff sampleCaseTable ⟨250, 3, "Exponential"⟩).next 0
       = retryConfig.baseline ⟨250, 3, "Exponential"⟩ ∧
     0 ≤ (retryConfig.Backoff sampleCaseTable ⟨250, 3, "Exponential"⟩).next 0) :=
  ⟨by decide,
   C5_baseline_nonneg_of_bounded sampleCaseTable ⟨250, 3, "Exponential"⟩ (by decide)⟩

/-- C5 (as stated) fails: `BaselineMilliseconds = 9223372036855` fits in a `uint`, yet the
product with `time.Millisecond` overflows `int64`; the baseline is negative and so is the
wait of the configured policy at attempt index 0. -/
theorem C5_counterexample :
    retryConfig.wellFormed ⟨9223372036855, 0, "none"⟩ ∧
    retryConfig.baseline ⟨9223372036855, 0, "none"⟩ = -9223372036854551616 ∧
    retryConfig.baseline ⟨9223372036855, 0, "none"⟩ ≠ 9223372036855 * 1000000 ∧
    retryConfig.Backoff id ⟨9223372036855, 0, "none"⟩ = retry.None (-9223372036854551616) ∧
    (retryConfig.Backoff id ⟨9223372036855, 0, "none"⟩).next 0 < 0 := by
  refine ⟨by decide, by decide, by decide, by decide, by decide⟩

/-- C6 (amended): the retry run `Session(curlFn).WithSessionTimeout(timeout).AndBackoff(
backoff).Until(predicate, message)` of a probe ends with a result. The result is *Success*
exactly when the observed output of some spawned session matches the predicate strictly
before the overall deadline. When an attempt cannot spawn its session, the run ends at once,
without a further attempt, in *Failure* carrying the message of the spawn error. Otherwise,
with no match and no failing spawn, it ends in *Failure* carrying the supplied message. -/
theorem C6_until_success_iff (r : retry.Run)
    (world : List String → Nat → Nat → retry.Spawned) (predicate : String → Bool) :
    ∃ result, r.Until world predicate = some result ∧
      (result = retry.Result.Success ↔
        ∃ k, r.sessionMatchesBeforeDeadline world predicate k) ∧
      (∀ k message, r.spawnFails world predicate k message →
        result = retry.Result.Failure message ∧
          r.controller.spawnTime (world r.curlArgs) predicate (k + 1) 0 0 = none) ∧
      (result ≠ retry.Result.Success →
        (∀ k message, ¬ r.spawnFails world predicate k message) →
        result = retry.Result.Failure r.failureMessage) := by
  obtain ⟨result, hr, hiff, hfatal, hfail⟩ :=
    retry.Controller.runLoop_spec r.controller rfl (world r.curlArgs) predicate
      (r.controller.overallTimeout.toNat + 1) 0 0
      (by unfold retry.Controller.remaining; omega)
  refine ⟨result, hr, ?_, ?_, ?_⟩
  · rw [hiff]
    unfold retry.Run.sessionMatchesBeforeDeadline
    simp only [Nat.zero_add]
    rfl
  · rintro k message ⟨t, hk, herr⟩
    exact hfatal k t message hk (by rw [Nat.zero_add]; exact herr)
  · intro hne hall
    apply hfail hne
    intro k t message hk herr
    exact hall k message ⟨t, hk, by rw [Nat.zero_add] at herr; exact herr⟩

/-- C6 (as stated) fails: when curl cannot be started, the run of `Write` is no *Success*
and its *Failure* does not carry the supplied message `Failed to put to ...`, but the
message of the spawn error. -/
theorem C6_counterexample :
    ((NewApp "http://app" 350 100).Write "k" "v").Until brokenWorld
      ((NewApp "http://app" 350 100).Write "k" "v").acceptsOutput
      = some (retry.Result.Failure "exec: \"curl\": executable file not found in $PATH") ∧
    retry.Result.Failure "exec: \"curl\": executable file not found in $PATH"
      ≠ retry.Result.Success ∧
    retry.Result.Failure "exec: \"curl\": executable file not found in $PATH"
      ≠ retry.Result.Failure ((NewApp "http://app" 350 100).Write "k" "v").failureMessage := by
  refine ⟨by decide, by decide, by decide⟩

/-- C7 (code at the failing inputs): `ReadAssert` compiles `expectedValue` as a regular
expression. With `expectedValue = "a+b"` the response `say a+b` contains the expected
value verbatim, yet the predicate rejects it (the pattern asks for `ab`, `aab`, ...), while
it accepts `aab`; with `expectedValue = "("` building the predicate panics. -/
theorem C7_ReadAssert_pattern_not_quoted (app : App) (key : String) :
    "a+b".data <:+: "say a+b".data ∧
    (app.ReadAssert key "a+b").checkOutput "say a+b" = retry.PredicateOutcome.rejects ∧
    (app.ReadAssert key "a+b").checkOutput "aab" = retry.PredicateOutcome.accepts ∧
    "(".data <:+: "(".data ∧
    (app.ReadAssert key "(").checkOutput "(" = retry.PredicateOutcome.panics := by
  refine ⟨by decide, ?_, ?_, by decide, ?_⟩
  · show retry.matchesPattern "a+b" "say a+b" = _
    decide
  · show retry.matchesPattern "a+b" "aab" = _
    decide
  · show retry.matchesPattern "(" "(" = _
    decide

/-- C8: the failure message of `Write` is `{"FailReason": "Failed to put to <uri>/<key>"}`
and that of `ReadAssert` is `{"FailReason": "Failed to get <uri>/<key>"}`, where
`<uri>/<key>` is `keyURI(key)`, the URL on the curl command line of the same probe. -/
theorem C8_failure_message_names_probe_url (app : App) (key value expectedValue : String) :
    app.keyURI key = app.uri ++ "/" ++ key ∧
    (app.Write key value).failureMessage
      = "\x7b\"FailReason\": \"Failed to put to " ++ app.uri ++ "/" ++ key ++ "\"\x7d" ∧
    (app.ReadAssert key expectedValue).failureMessage
      = "\x7b\"FailReason\": \"Failed to get " ++ app.uri ++ "/" ++ key ++ "\"\x7d" ∧
    (app.Write key value).curlArgs
      = ["-d", "data=" ++ value, "-X", "PUT", app.uri ++ "/" ++ key, "-k"] ∧
    (app.ReadAssert key expectedValue).curlArgs = [app.uri ++ "/" ++ key, "-k"] := by
  have hk : app.keyURI key = app.uri ++ "/" ++ key := by
    unfold App.keyURI
    apply String.ext
    have hf : "%s/%s".data = ['%', 's', '/', '%', 's'] := rfl
    have hm : "/".data = ['/'] := rfl
    simp only [fmt.Sprintf, hf, String.data_append, hm]
    rw [fmt.sprintfAux_str]
    simp [fmt.sprintfAux, fmt.extraArgs]
  have hput := fmt.Sprintf_one_str "\x7b\"FailReason\": \"Failed to put to " "\"\x7d"
    (app.keyURI key) (by decide) (by decide)
  have hget := fmt.Sprintf_one_str "\x7b\"FailReason\": \"Failed to get " "\"\x7d"
    (app.keyURI key) (by decide) (by decide)
  have hdata := fmt.Sprintf_one_str "data=" "" value (by decide) (by simp)
  rw [hk] at hput hget
  refine ⟨hk, ?_, ?_, ?_, ?_⟩
  · show fmt.Sprintf _ _ = _
    rw [hk]
    simp only [String.append_assoc] at hput ⊢
    exact hput
  · show fmt.Sprintf _ _ = _
    rw [hk]
    simp only [String.append_assoc] at hget ⊢
    exact hget
  · show [_, fmt.Sprintf _ _, _, _, App.keyURI _ _, _] = _
    rw [hk]
    have : fmt.Sprintf "data=%s" [fmt.Arg.str value] = "data=" ++ value := by
      simpa using hdata
    rw [this]
  · show [App.keyURI _ _, _] = _
    rw [hk]

/-- C9: `NewApp` keeps `uri` and `timeout` and installs the policy `retry.None(retryInterval)`;
each probe of such an App (`IsRunning`, `Write`, `ReadAssert`) runs with that policy, which
is no linear and no exponential policy and waits `retryInterval` at every attempt index. -/
theorem C9_NewApp_constant_interval (uri : String) (timeout retryInterval : time.Duration)
    (key value expectedValue : String) (b : time.Duration) (i : Nat) :
    (NewApp uri timeout retryInterval).uri = uri ∧
    (NewApp uri timeout retryInterval).timeout = timeout ∧
    (NewApp uri timeout retryInterval).retryBackoff = retry.None retryInterval ∧
    (NewApp uri timeout retryInterval).IsRunning.backoff = retry.None retryInterval ∧
    ((NewApp uri timeout retryInterval).Write key value).backoff = retry.None retryInterval ∧
    ((NewApp uri timeout retryInterval).ReadAssert key expectedValue).backoff
      = retry.None retryInterval ∧
    (NewApp uri timeout retryInterval).retryBackoff ≠ retry.Linear b ∧
    (NewApp uri timeout retryInterval).retryBackoff ≠ retry.Exponential b ∧
    (NewApp uri timeout retryInterval).IsRunning.backoff.next i = retryInterval ∧
    ((NewApp uri timeout retryInterval).Write key value).backoff.next i = retryInterval ∧
    ((NewApp uri timeout retryInterval).ReadAssert key expectedValue).backoff.next i
      = retryInterval := by
  refine ⟨rfl, rfl, rfl, rfl, rfl, rfl, ?_, ?_, rfl, rfl, rfl⟩
  · simp [NewApp]
  · simp [NewApp]

/-- C10: the five names `NewContext` generates are
`prefix ++ "-QUOTA-"/"-ORG-"/"-SPACE-"/"-USER-"/"-SECURITY_GROUP-" ++ node ++ "-" ++ timeTag`;
they are pairwise distinct, each starts with the prefix, and `isPersistent` is false. -/
theorem C10_NewContext_names {IntegrationConfig : Type} (config : IntegrationConfig)
    (namePrefix : String) (node : Int) (timeTag : String) :
    (NewContext config namePrefix node timeTag).generatedNames
      = [namePrefix ++ "-QUOTA-" ++ toString node ++ "-" ++ timeTag,
         namePrefix ++ "-ORG-" ++ toString node ++ "-" ++ timeTag,
         namePrefix ++ "-SPACE-" ++ toString node ++ "-" ++ timeTag,
         namePrefix ++ "-USER-" ++ toString node ++ "-" ++ timeTag,
         namePrefix ++ "-SECURITY_GROUP-" ++ toString node ++ "-" ++ timeTag] ∧
    (NewContext config namePrefix node timeTag).generatedNames.Pairwise (fun a b => a ≠ b) ∧
    (∀ name ∈ (NewContext config namePrefix node timeTag).generatedNames,
      namePrefix.data <+: name.data) ∧
    (NewContext config namePrefix node timeTag).isPersistent = false := by
  have hq := fmt.Sprintf_name "-QUOTA-" namePrefix node timeTag (by decide)
  have ho := fmt.Sprintf_name "-ORG-" namePrefix node timeTag (by decide)
  have hs := fmt.Sprintf_name "-SPACE-" namePrefix node timeTag (by decide)
  have hu := fmt.Sprintf_name "-USER-" namePrefix node timeTag (by decide)
  have hg := fmt.Sprintf_name "-SECURITY_GROUP-" namePrefix node timeTag (by decide)
  have hnames : (NewContext config namePrefix node timeTag).generatedNames
      = [namePrefix ++ "-QUOTA-" ++ toString node ++ "-" ++ timeTag,
         namePrefix ++ "-ORG-" ++ toString node ++ "-" ++ timeTag,
         namePrefix ++ "-SPACE-" ++ toString node ++ "-" ++ timeTag,
         namePrefix ++ "-USER-" ++ toString node ++ "-" ++ timeTag,
         namePrefix ++ "-SECURITY_GROUP-" ++ toString node ++ "-" ++ timeTag] := by
    show [fmt.Sprintf _ _, fmt.Sprintf _ _, fmt.Sprintf _ _, fmt.Sprintf _ _, fmt.Sprintf _ _] = _
    rw [← hq, ← ho, ← hs, ← hu, ← hg]
    rfl
  have dQ : "-QUOTA-".data = ['-', 'Q', 'U', 'O', 'T', 'A', '-'] := rfl
  have dO : "-ORG-".data = ['-', 'O', 'R', 'G', '-'] := rfl
  have dS : "-SPACE-".data = ['-', 'S', 'P', 'A', 'C', 'E', '-'] := rfl
  have dU : "-USER-".data = ['-', 'U', 'S', 'E', 'R', '-'] := rfl
  have dG : "-SECURITY_GROUP-".data
      = ['-', 'S', 'E', 'C', 'U', 'R', 'I', 'T', 'Y', '_', 'G', 'R', 'O', 'U', 'P', '-'] := rfl
  refine ⟨hnames, ?_, ?_, rfl⟩
  · rw [hnames]
    simp only [String.append_assoc]
    simp only [← String.append_assoc namePrefix]
    simp only [List.pairwise_cons, List.mem_cons, List.mem_singleton, forall_eq_or_imp, forall_eq,
      List.not_mem_nil, false_implies, implies_true, List.Pairwise.nil, and_true]
    refine ⟨⟨?_, ?_, ?_, ?_⟩, ⟨?_, ?_, ?_⟩, ⟨?_, ?_⟩, ?_⟩ <;>
      (apply NewContext_name_ne; intro x y; simp [dQ, dO, dS, dU, dG])
  · rw [hnames]
    intro name hname
    simp only [List.mem_cons, List.mem_singleton, List.not_mem_nil, or_false] at hname
    rcases hname with rfl | rfl | rfl | rfl | rfl <;>
      simp [String.data_append, List.append_assoc]
